import Mathlib

/-!
Verification of `chainer/dataset/convert.py`.

The module is embedded shallowly:

* a numpy/cupy ndarray becomes `NDArray`: a shape, a residence location
  (host or an accelerator device) and a total function from multi-indices
  to cells; array equality is read extensionally on the in-bounds region;
* Python exceptions become `Except PyErr`;
* the stateful classes `ConcatWithAsyncTransfer` and `Conveyer` become
  explicit state-passing functions that also emit the trace of runtime
  events (device synchronization, pinned/device allocation, copies).
-/

set_option maxHeartbeats 1000000

/-- Residence of an array: host memory (a numpy array) or an accelerator
device with a given id (a cupy array). -/
inductive Loc where
  | cpu : Loc
  | gpu : Nat → Loc
deriving DecidableEq

/-- Shallow embedding of an n-dimensional array: a shape, a residence
location, and a total function giving the cell at each multi-index.  Cells
at out-of-bounds indices are irrelevant: array equality is read
extensionally on the valid index region (`NDArray.extEq`). -/
structure NDArray (α : Type) where
  shape : List Nat
  loc : Loc
  data : List Nat → α

instance {α : Type} [Inhabited α] : Inhabited (NDArray α) :=
  ⟨{ shape := [], loc := Loc.cpu, data := fun _ => default }⟩

/-- Validity of a multi-index for a shape: same length, each coordinate
below the corresponding dimension. -/
def inBounds : List Nat → List Nat → Bool
  | [], [] => true
  | d :: ds, i :: is => i < d && inBounds ds is
  | _, _ => false

/-- All valid multi-indices of a shape, in row-major order. -/
def allIdx : List Nat → List (List Nat)
  | [] => [[]]
  | d :: ds => (List.range d).flatMap (fun i => (allIdx ds).map (fun j => i :: j))

/-- Extensional equality of arrays: same shape, same residence, same cells
at every valid index. -/
def NDArray.extEq {α : Type} (a b : NDArray α) : Prop :=
  a.shape = b.shape ∧ a.loc = b.loc ∧
    ∀ idx, inBounds a.shape idx = true → a.data idx = b.data idx

/-- Decidable (boolean) extensional equality of arrays, used to evaluate
concrete scenarios. -/
def NDArray.beq {α : Type} [BEq α] (a b : NDArray α) : Bool :=
  a.shape == b.shape && a.loc == b.loc &&
    (allIdx a.shape).all (fun idx => a.data idx == b.data idx)

/-- Number of bytes of an array: item size of its dtype times the number of
cells (`ndarray.nbytes`). -/
def NDArray.nbytes {α : Type} (itemsize : Nat) (a : NDArray α) : Nat :=
  itemsize * a.shape.prod

/-- Python exceptions that the module can raise. -/
inductive PyErr where
  | valueError : String → PyErr
  | typeError : PyErr
  | keyError : PyErr
  | indexError : PyErr
  | unboundLocalError : PyErr
  | broadcastError : PyErr
deriving DecidableEq

/-- Embedding of `to_device` (convert.py lines 13-41): `None` leaves the
array untouched, a negative id sends it to host memory (`cuda.to_cpu`), a
non-negative id sends it to that accelerator (`cuda.to_gpu`). -/
def to_device {α : Type} (device : Option Int) (x : NDArray α) : NDArray α :=
  match device with
  | none => x
  | some d => if d < 0 then { x with loc := Loc.cpu } else { x with loc := Loc.gpu d.toNat }

/-- A slot value inside an example: a built-in scalar or an ndarray. -/
inductive Val (α : Type) where
  | scalar : α → Val α
  | arr : NDArray α → Val α

/-- Conversion of a slot value to an ndarray, as `numpy.asarray` does for
built-in scalars (a scalar becomes a 0-d host array). -/
def Val.toArr {α : Type} : Val α → NDArray α
  | Val.scalar x => { shape := [], loc := Loc.cpu, data := fun _ => x }
  | Val.arr a => a

/-- One example of a batch: a plain value (array or scalar), a tuple of
slot values, or a string-keyed mapping of slot values (an ordered
association list, as Python dicts preserve insertion order). -/
inductive Example (α : Type) where
  | single : Val α → Example α
  | tup : List (Val α) → Example α
  | dict : List (String × Val α) → Example α

/-- The `padding` argument of `concat_examples`: `None`, a scalar, a tuple
of per-slot values, or a dict of per-key values (each slot value may itself
be `None`). -/
inductive Padding (α : Type) where
  | none : Padding α
  | scalar : α → Padding α
  | tup : List (Option α) → Padding α
  | dict : List (String × Option α) → Padding α

/-- The result of `concat_examples`: one array, a tuple of arrays, or a
dict of arrays, matching the structure of the examples. -/
inductive CResult (α : Type) where
  | arr : NDArray α → CResult α
  | tup : List (NDArray α) → CResult α
  | dict : List (String × NDArray α) → CResult α

/-- Boolean extensional equality of batch-concatenation results. -/
def CResult.beq {α : Type} [BEq α] : CResult α → CResult α → Bool
  | CResult.arr a, CResult.arr b => NDArray.beq a b
  | CResult.tup xs, CResult.tup ys =>
      xs.length == ys.length &&
        (List.zip xs ys).all (fun ab => NDArray.beq ab.1 ab.2)
  | CResult.dict xs, CResult.dict ys =>
      xs.length == ys.length &&
        (List.zip xs ys).all (fun ab => ab.1.1 == ab.2.1 && NDArray.beq ab.1.2 ab.2.2)
  | _, _ => false

/-- Boolean check that an `Except` value succeeded with (extensionally) the
given concatenation result. -/
def exceptOkBeq {α : Type} [BEq α] (e : Except PyErr (CResult α)) (r : CResult α) : Bool :=
  match e with
  | Except.ok x => CResult.beq x r
  | Except.error _ => false

/-- One step of the running-shape update of `_concat_arrays_with_padding`
(convert.py lines 133-136): `if numpy.any(shape != array.shape):
numpy.maximum(shape, array.shape, shape)`.  When the shapes already agree
the update is skipped; otherwise the running shape becomes the elementwise
maximum.  (`numpy.maximum` raises on non-broadcastable ranks; the claims
only use equal-rank inputs, where it is `List.zipWith max`.) -/
def shapeStep (sh : List Nat) (b : List Nat) : List Nat :=
  if sh == b then sh else List.zipWith max sh b

/-- The common shape computed by `_concat_arrays_with_padding` (lines
133-136): the first shape folded through `shapeStep` over the remaining
arrays. -/
def maxShapeCode {α : Type} (a0 : NDArray α) (rest : List (NDArray α)) : List Nat :=
  rest.foldl (fun sh b => shapeStep sh b.shape) a0.shape

/-- Embedding of the numpy statement `result[(i,) + slices] = src` with
`slices = tuple(slice(dim) for dim in src.shape)` (lines 143-145): every
cell of `res` at a multi-index `(i, j)` with `j` inside the extent of
`src.shape` is overwritten by the corresponding cell of `src`. -/
def writeSub {α : Type} (res : NDArray α) (i : Nat) (src : NDArray α) : NDArray α :=
  { res with data := fun idx =>
      match idx with
      | i2 :: j => if i2 == i && inBounds src.shape j then src.data j else res.data (i2 :: j)
      | [] => res.data [] }

/-- Embedding of `_concat_arrays_with_padding` (lines 132-147): compute the
elementwise maximum shape, allocate a batch-sized array pre-filled with the
padding value (`xp.full`, on the device of the first input), and copy each
input into its top-left-aligned sub-region.  `arrays[0]` on an empty list
raises `IndexError`. -/
def concatWithPadding {α : Type} [Inhabited α]
    (arrays : List (NDArray α)) (padding : α) : Except PyErr (NDArray α) :=
  match arrays with
  | [] => Except.error PyErr.indexError
  | a0 :: rest =>
    let sh := maxShapeCode a0 rest
    let n := (a0 :: rest).length
    let res0 : NDArray α := { shape := n :: sh, loc := a0.loc, data := fun _ => padding }
    Except.ok ((List.range n).foldl
      (fun res i => writeSub res i ((a0 :: rest).getD i default)) res0)

/-- Leading-dimension sum of a list of arrays (`numpy.concatenate` result
length along axis 0). -/
def sumHeads {α : Type} (arrays : List (NDArray α)) : Nat :=
  arrays.foldl (fun s a => s + a.shape.headD 0) 0

/-- Cell lookup of the axis-0 concatenation of several arrays: walk the
blocks until the leading index falls inside one of them. -/
def catData {α : Type} [Inhabited α] : List (NDArray α) → Nat → List Nat → α
  | [], _, _ => default
  | a :: rest, i, j =>
      if i < a.shape.headD 0 then a.data (i :: j) else catData rest (i - a.shape.headD 0) j

/-- Embedding of `xp.concatenate` along axis 0: all inputs must have rank
at least one and identical trailing shapes, otherwise numpy raises a
`ValueError` (the ShapeMismatch condition).  The result lives on the device
of the first input. -/
def concatenate0 {α : Type} [Inhabited α] (arrays : List (NDArray α)) :
    Except PyErr (NDArray α) :=
  match arrays with
  | [] => Except.error (PyErr.valueError "need at least one array to concatenate")
  | a0 :: rest =>
    match a0.shape with
    | [] => Except.error (PyErr.valueError "zero-dimensional arrays cannot be concatenated")
    | _ :: ds =>
      if (a0 :: rest).all (fun b => !b.shape.isEmpty && b.shape.tail == ds) then
        Except.ok
          { shape := sumHeads (a0 :: rest) :: ds, loc := a0.loc,
            data := fun idx =>
              match idx with
              | i :: j => catData (a0 :: rest) i j
              | [] => default }
      else
        Except.error (PyErr.valueError
          "all the input array dimensions except for the concatenation axis must match exactly")

/-- Embedding of the numpy expression `array[None]` (line 129): a new
leading axis of extent one. -/
def expandDim0 {α : Type} [Inhabited α] (a : NDArray α) : NDArray α :=
  { shape := 1 :: a.shape, loc := a.loc,
    data := fun idx =>
      match idx with
      | _ :: j => a.data j
      | [] => default }

/-- Embedding of `_concat_arrays` (lines 118-129).  When the first element
is not an ndarray, `numpy.asarray` coerces the built-in scalars into 0-d
arrays (`Val.toArr`; on an already-array element the coercion is the
identity, so the guard on `arrays[0]` does not change the value).  With a
padding value the call goes to `_concat_arrays_with_padding`; without one
it stacks `array[None]` slices with `xp.concatenate`. -/
def concatArrays {α : Type} [Inhabited α]
    (vals : List (Val α)) (padding : Option α) : Except PyErr (NDArray α) :=
  match vals with
  | [] => Except.error PyErr.indexError
  | v0 :: rest =>
    let arrays := (v0 :: rest).map Val.toArr
    match padding with
    | some p => concatWithPadding arrays p
    | none => concatenate0 (arrays.map expandDim0)

/-- Per-slot padding of the tuple branch (lines 94-95 and 99): a non-tuple
padding is broadcast as `[padding] * len(first_elem)`; a tuple padding is
indexed, raising `IndexError` when too short.  A dict broadcast as a fill
value would be rejected by `numpy.full` (`TypeError`); non-scalar fill
values are outside the modeled domain. -/
def Padding.forSlot {α : Type} (padding : Padding α) (i : Nat) : Except PyErr (Option α) :=
  match padding with
  | Padding.tup ps =>
      match ps.get? i with
      | some p => Except.ok p
      | Option.none => Except.error PyErr.indexError
  | Padding.none => Except.ok Option.none
  | Padding.scalar x => Except.ok (some x)
  | Padding.dict _ => Except.error PyErr.typeError

/-- Per-key padding of the dict branch (lines 105-106 and 110): a non-dict
padding is broadcast as `{key: padding for key in first_elem}`; a dict
padding is looked up, raising `KeyError` on a missing key.  A tuple
broadcast as a fill value is outside the modeled domain. -/
def Padding.forKey {α : Type} (padding : Padding α) (key : String) : Except PyErr (Option α) :=
  match padding with
  | Padding.dict ps =>
      match ps.lookup key with
      | some p => Except.ok p
      | Option.none => Except.error PyErr.keyError
  | Padding.none => Except.ok Option.none
  | Padding.scalar x => Except.ok (some x)
  | Padding.tup _ => Except.error PyErr.typeError

/-- The padding argument as passed raw to `_concat_arrays` in the plain
array branch (line 115): `None` or a scalar; a structured padding used as
a fill value is outside the modeled domain. -/
def Padding.toOpt {α : Type} (padding : Padding α) : Except PyErr (Option α) :=
  match padding with
  | Padding.none => Except.ok Option.none
  | Padding.scalar x => Except.ok (some x)
  | Padding.tup _ => Except.error PyErr.typeError
  | Padding.dict _ => Except.error PyErr.typeError

/-- Python `example[i]` for an example expected to be a tuple; indexing a
non-tuple example of a structurally mixed batch raises. -/
def Example.atIdx {α : Type} (e : Example α) (i : Nat) : Except PyErr (Val α) :=
  match e with
  | Example.tup xs =>
      match xs.get? i with
      | some v => Except.ok v
      | none => Except.error PyErr.indexError
  | _ => Except.error PyErr.typeError

/-- Python `example[key]` for an example expected to be a dict; a missing
key raises `KeyError`, a non-dict example of a mixed batch raises. -/
def Example.atKey {α : Type} (e : Example α) (key : String) : Except PyErr (Val α) :=
  match e with
  | Example.dict xs =>
      match xs.lookup key with
      | some v => Except.ok v
      | none => Except.error PyErr.keyError
  | _ => Except.error PyErr.typeError

/-- An example used as a plain slot value in the array branch; a tuple or
dict example inside an array-first batch is a mixed batch and raises inside
numpy. -/
def Example.asVal {α : Type} (e : Example α) : Except PyErr (Val α) :=
  match e with
  | Example.single v => Except.ok v
  | _ => Except.error PyErr.typeError

/-- Embedding of `concat_examples` (lines 44-115): an empty batch raises
the empty-batch `ValueError`; a tuple first element drives per-index
concatenation, a dict first element drives per-key concatenation (keys in
the insertion order of the first example), anything else is concatenated
as one batch of arrays; each concatenated slot is routed through
`to_device`. -/
def concatExamples {α : Type} [Inhabited α] (batch : List (Example α))
    (device : Option Int) (padding : Padding α) : Except PyErr (CResult α) :=
  match batch with
  | [] => Except.error (PyErr.valueError "batch is empty")
  | first :: _ =>
    match first with
    | Example.tup xs => do
        let res ← (List.range xs.length).mapM (fun i => do
          let col ← batch.mapM (fun e => Example.atIdx e i)
          let p ← Padding.forSlot padding i
          let a ← concatArrays col p
          pure (to_device device a))
        pure (CResult.tup res)
    | Example.dict xs => do
        let res ← (xs.map Prod.fst).mapM (fun key => do
          let col ← batch.mapM (fun e => Example.atKey e key)
          let p ← Padding.forKey padding key
          let a ← concatArrays col p
          pure (key, to_device device a))
        pure (CResult.dict res)
    | Example.single _ => do
        let col ← batch.mapM Example.asVal
        let p ← Padding.toOpt padding
        let a ← concatArrays col p
        pure (CResult.arr (to_device device a))

/-- Runtime events of the asynchronous transfer path, in issue order. -/
inductive Event where
  | deviceSynchronize : Event
  | allocPinned : Nat → Event
  | allocDevice : Nat → Event
  | copyToPinned : Event
  | asyncCopyToDevice : Event
deriving DecidableEq

/-- Whether an event is a buffer allocation. -/
def Event.isAlloc : Event → Bool
  | Event.allocPinned _ => true
  | Event.allocDevice _ => true
  | _ => false

/-- State of a `Conveyer` (convert.py lines 230-247): the target device,
the CUDA stream (modeled as `Option Unit`), and `array_set`, the rotation
list of (pinned host buffer, device buffer) pairs. -/
structure Conveyer (α : Type) where
  device : Option Int
  stream : Option Unit
  array_set : List (Option (NDArray α) × Option (NDArray α))

/-- Embedding of `Conveyer.__init__` (lines 244-247): the rotation starts
with two empty pairs. -/
def Conveyer.init {α : Type} (device : Option Int) (stream : Option Unit) : Conveyer α :=
  { device := device, stream := stream, array_set := [(none, none), (none, none)] }

/-- The pinned host buffer made for an array on reallocation (lines
275-279): `numpy.frombuffer(pinned memory).reshape(array.shape)`, then
filled by the host-side copy `pin_array[...] = array` (line 282). -/
def pinnedLike {α : Type} (a : NDArray α) : NDArray α :=
  { shape := a.shape, loc := Loc.cpu, data := a.data }

/-- The device buffer made for an array on reallocation (line 280):
`cupy.empty_like(array)` on device `d`, then filled by the asynchronous
copy `cp_array.set(pin_array, stream)` (line 283). -/
def deviceLike {α : Type} (d : Int) (a : NDArray α) : NDArray α :=
  { shape := a.shape, loc := Loc.gpu d.toNat, data := a.data }

/-- The reallocation branch of `Conveyer.__call__` (lines 261-280): a full
`runtime.deviceSynchronize()` first, then the new pinned host buffer and
the new device buffer, both refilled by the copies of lines 282-283, the
pair pushed to the back of the rotation and the device buffer returned
(lines 285-286). -/
def Conveyer.reallocStep {α : Type} (itemsize : Nat) (c : Conveyer α) (array : NDArray α)
    (rest : List (Option (NDArray α) × Option (NDArray α))) :
    Except PyErr (NDArray α) × Conveyer α × List Event :=
  (Except.ok (deviceLike (c.device.getD 0) array),
   { c with array_set :=
       rest ++ [(some (pinnedLike array), some (deviceLike (c.device.getD 0) array))] },
   [Event.deviceSynchronize, Event.allocPinned (NDArray.nbytes itemsize array),
    Event.allocDevice (NDArray.nbytes itemsize array),
    Event.copyToPinned, Event.asyncCopyToDevice])

/-- Embedding of `Conveyer.__call__` (lines 249-286).

* Synchronous path (line 250): device absent or negative, or stream
  absent: plain `to_device`, state untouched, no events.
* Otherwise the front pair is popped; the source sets `pin_array = None`
  when the retained byte size differs from the byte size of the new array
  (lines 254-258) and then branches on `pin_array is None` (line 261), so
  reallocation (`Conveyer.reallocStep`) is reached both from an empty
  popped pair and from a mismatched one.
* On the reuse path the array is copied into the retained pinned buffer
  and an asynchronous host-to-device copy refills the retained device
  buffer (lines 282-283); these copies require the retained shapes to
  match the new array (numpy broadcasting of a different same-nbytes shape
  and `cupy.ndarray.set` reject mismatches; only the exact-shape success
  is modeled, a mismatch raises with the popped pair lost, as in Python).
* The refilled pair is pushed to the back and the device buffer returned
  (lines 285-286). -/
def Conveyer.call {α : Type} (itemsize : Nat) (c : Conveyer α) (array : NDArray α) :
    Except PyErr (NDArray α) × Conveyer α × List Event :=
  if c.device = none ∨ c.device.getD 0 < 0 ∨ c.stream = none then
    (Except.ok (to_device c.device array), c, [])
  else
    match c.array_set with
    | [] => (Except.error PyErr.indexError, c, [])
    | (pin0, cp0) :: rest =>
      match pin0 with
      | none => Conveyer.reallocStep itemsize c array rest
      | some pin =>
        if NDArray.nbytes itemsize pin == NDArray.nbytes itemsize array then
          match cp0 with
          | some cp =>
              if pin.shape == array.shape then
                if cp.shape == array.shape then
                  (Except.ok { cp with data := array.data },
                   { c with array_set :=
                       rest ++ [(some { pin with data := array.data },
                                 some { cp with data := array.data })] },
                   [Event.copyToPinned, Event.asyncCopyToDevice])
                else
                  (Except.error (PyErr.valueError "mismatched shape in cupy ndarray set"),
                   { c with array_set := rest }, [Event.copyToPinned])
              else
                (Except.error PyErr.broadcastError, { c with array_set := rest }, [])
          | none => (Except.error PyErr.typeError, { c with array_set := rest }, [])
        else Conveyer.reallocStep itemsize c array rest

/-- Embedding of `Conveyer.synchronize` (lines 288-294): a global
`deviceSynchronize` when a stream is configured. -/
def Conveyer.syncEvents {α : Type} (c : Conveyer α) : List Event :=
  if c.stream = none then [] else [Event.deviceSynchronize]

/-- State of a `ConcatWithAsyncTransfer` object (lines 163-165): the shared
stream and the registry of per-slot conveyers, a dict keyed by the integer
slot index. -/
structure CWAT (α : Type) where
  stream : Option Unit
  conveyer : List (Nat × Conveyer α)

/-- Embedding of `ConcatWithAsyncTransfer.__init__` (lines 163-165). -/
def CWAT.init {α : Type} (stream : Option Unit) : CWAT α :=
  { stream := stream, conveyer := [] }

/-- In-place update of one conveyer of the registry (the Python objects are
mutated in place; the registry keeps its keys). -/
def assocSet {α : Type} (l : List (Nat × Conveyer α)) (k : Nat) (v : Conveyer α) :
    List (Nat × Conveyer α) :=
  l.map (fun kv => if kv.fst = k then (k, v) else kv)

/-- The tuple-branch loop of `ConcatWithAsyncTransfer.__call__` (lines
195-201): for each slot index, lazily create the conveyer of that slot, build the
column of slot values across the batch, concatenate it and route the result
through the conveyer; an exception propagates with the state mutated so
far. -/
def CWAT.tupLoop {α : Type} [Inhabited α] (itemsize : Nat) (batch : List (Example α))
    (padding : Padding α) (device : Option Int) (stream : Option Unit) :
    List Nat → CWAT α → List (NDArray α) →
    List Event → Except PyErr (List (NDArray α)) × CWAT α × List Event
  | [], s, acc, evs => (Except.ok acc.reverse, s, evs)
  | i :: is, s, acc, evs =>
    let s :=
      if (s.conveyer.lookup i).isNone then
        { s with conveyer := s.conveyer ++ [(i, Conveyer.init device stream)] }
      else s
    let concatenated : Except PyErr (NDArray α) := do
      let col ← batch.mapM (fun e => Example.atIdx e i)
      let p ← Padding.forSlot padding i
      concatArrays col p
    match concatenated with
    | Except.error e => (Except.error e, s, evs)
    | Except.ok a =>
      match s.conveyer.lookup i with
      | none => (Except.error PyErr.keyError, s, evs)
      | some cv =>
        let step := Conveyer.call itemsize cv a
        let s := { s with conveyer := assocSet s.conveyer i step.2.1 }
        match step.1 with
        | Except.error e => (Except.error e, s, evs ++ step.2.2)
        | Except.ok b =>
            CWAT.tupLoop itemsize batch padding device stream is s (b :: acc) (evs ++ step.2.2)

/-- The tuple-branch synchronization loop (lines 203-204): the conveyer of
every slot synchronizes once (a conveyer missing from the registry would be a
`KeyError`, which cannot happen after the transfer loop). -/
def CWAT.syncLoop {α : Type} (s : CWAT α) : List Nat → List Event
  | [] => []
  | i :: is =>
      (match s.conveyer.lookup i with
       | some cv => cv.syncEvents
       | none => []) ++ CWAT.syncLoop s is

/-- Embedding of `ConcatWithAsyncTransfer.__call__` (lines 167-227).

* An empty batch raises the empty-batch `ValueError` before anything else
  (lines 181-182).
* With a requested non-negative device and no stream yet, the shared stream
  is created (lines 186-188).
* Tuple batch: per-index loop through the conveyers, then one synchronize
  per slot (lines 190-206).
* Dict batch (lines 208-224): the loop body reads the local variable `i`
  (`if i not in self.conveyer`, `example[i]`, `padding[i]`), but on this
  path `i` is never assigned, so a non-empty dict raises
  `UnboundLocalError` at the first iteration; an empty dict returns `{}`.
* Otherwise a synchronous `to_device` of the plain concatenation
  (line 227). -/
def CWAT.call {α : Type} [Inhabited α] (itemsize : Nat) (s : CWAT α)
    (batch : List (Example α)) (device : Option Int) (padding : Padding α) :
    Except PyErr (CResult α) × CWAT α × List Event :=
  match batch with
  | [] => (Except.error (PyErr.valueError "batch is empty"), s, [])
  | first :: _ =>
    let s :=
      if ((match device with | some d => decide (0 ≤ d) | none => false) && s.stream.isNone) then
        { s with stream := some () }
      else s
    match first with
    | Example.tup xs =>
        let step := CWAT.tupLoop itemsize batch padding device s.stream
          (List.range xs.length) s [] []
        match step.1 with
        | Except.error e => (Except.error e, step.2.1, step.2.2)
        | Except.ok arrs =>
            (Except.ok (CResult.tup arrs), step.2.1,
             step.2.2 ++ CWAT.syncLoop step.2.1 (List.range xs.length))
    | Example.dict xs =>
        if xs.isEmpty then (Except.ok (CResult.dict []), s, [])
        else (Except.error PyErr.unboundLocalError, s, [])
    | Example.single _ =>
        let r : Except PyErr (CResult α) := do
          let col ← batch.mapM Example.asVal
          let p ← Padding.toOpt padding
          let a ← concatArrays col p
          pure (CResult.arr (to_device device a))
        (r, s, [])

/-! Concrete fixtures used to evaluate the definitions on closed inputs. -/

/-- A concrete 1-d host array built from a list of integers. -/
def ofList1 (xs : List Int) : NDArray Int :=
  { shape := [xs.length], loc := Loc.cpu, data := fun idx => xs.getD (idx.headD 0) 0 }

/-- A concrete 2-d host array built from a rectangular list of lists of
integers. -/
def ofList2 (xss : List (List Int)) : NDArray Int :=
  { shape := [xss.length, (xss.headD []).length], loc := Loc.cpu,
    data := fun idx =>
      match idx with
      | [i, j] => (xss.getD i []).getD j 0
      | _ => 0 }

/-- The batch of the worked example in the spec: two dict examples with a ragged
array under key x and a built-in scalar under key y. -/
def c8batch : List (Example Int) :=
  [Example.dict [("x", Val.arr (ofList1 [1, 2])), ("y", Val.scalar 0)],
   Example.dict [("x", Val.arr (ofList1 [3, 4, 5])), ("y", Val.scalar 1)]]

/-- The padding of the worked example in the spec. -/
def c8pad : Padding Int := Padding.dict [("x", some 0), ("y", none)]

/-- The expected result of the worked example in the spec. -/
def c8expected : CResult Int :=
  CResult.dict [("x", ofList2 [[1, 2, 0], [3, 4, 5]]), ("y", ofList1 [0, 1])]

/-- A two-example dict batch with an equal-shaped array under key x. -/
def bugBatch : List (Example Int) :=
  [Example.dict [("x", Val.arr (ofList1 [1, 2]))],
   Example.dict [("x", Val.arr (ofList1 [1, 2]))]]

/-- A concrete host array. -/
def exArr : NDArray Int := ofList1 [7, 8]

/-- A conveyer configured with a negative device id and a stream. -/
def cvNeg : Conveyer Int := Conveyer.init (some (-1)) (some ())

/-! Theorems about the embedded module. -/

/-- C6: `to_device` with `None` returns the array unchanged (same array,
same device); with a negative id it returns the array copied to host
memory; with a non-negative id it returns the array copied to accelerator
device `d`. -/
theorem to_device_cases {α : Type} (x : NDArray α) (d : Int) :
    to_device none x = x ∧
    (d < 0 → to_device (some d) x = { x with loc := Loc.cpu }) ∧
    (0 ≤ d → to_device (some d) x = { x with loc := Loc.gpu d.toNat }) := by
  refine ⟨rfl, fun h => ?_, fun h => ?_⟩
  · simp [to_device, h]
  · simp [to_device, not_lt.mpr h]

/-- Witness for `to_device_cases` at a concrete array and concrete device
ids. -/
theorem to_device_cases_witness :
    ((-1 : Int) < 0 ∧ to_device (some (-1)) exArr = { exArr with loc := Loc.cpu }) ∧
    ((0 : Int) ≤ 3 ∧ to_device (some 3) exArr = { exArr with loc := Loc.gpu (3 : Int).toNat }) :=
  ⟨⟨by decide, (to_device_cases exArr (-1)).2.1 (by decide)⟩,
   ⟨by decide, (to_device_cases exArr 3).2.2 (by decide)⟩⟩

/-- C4: on an empty batch both `concat_examples` and
`ConcatWithAsyncTransfer.__call__` raise the empty-batch `ValueError`
immediately, for every device and padding argument, returning no partial
result and leaving the transfer state untouched. -/
theorem empty_batch_raises {α : Type} [Inhabited α] (itemsize : Nat) (s : CWAT α)
    (device : Option Int) (padding : Padding α) :
    concatExamples ([] : List (Example α)) device padding
        = Except.error (PyErr.valueError "batch is empty") ∧
    CWAT.call itemsize s [] device padding
        = (Except.error (PyErr.valueError "batch is empty"), s, []) :=
  ⟨rfl, rfl⟩

/-- C7: `Conveyer.__call__` with device `None`, a negative device, or no
stream performs a plain synchronous `to_device` and returns its result,
leaving the `array_set` of the channel (indeed the whole state) unchanged and
issuing no runtime event. -/
theorem conveyer_sync_path {α : Type} (itemsize : Nat) (c : Conveyer α) (a : NDArray α)
    (h : c.device = none ∨ c.device.getD 0 < 0 ∨ c.stream = none) :
    Conveyer.call itemsize c a = (Except.ok (to_device c.device a), c, []) := by
  unfold Conveyer.call
  rw [if_pos h]

/-- Witness for `conveyer_sync_path` at a concrete negative-device
conveyer. -/
theorem conveyer_sync_path_witness :
    (cvNeg.device = none ∨ cvNeg.device.getD 0 < 0 ∨ cvNeg.stream = none) ∧
    Conveyer.call 1 cvNeg exArr = (Except.ok (to_device cvNeg.device exArr), cvNeg, []) :=
  ⟨by decide, conveyer_sync_path 1 cvNeg exArr (by decide)⟩

/-- C8: `concat_examples` on the batch
`[{x: [1,2], y: 0}, {x: [3,4,5], y: 1}]` with padding
`{x: 0, y: None}` and no device returns the mapping
`{x: [[1,2,0],[3,4,5]], y: [0,1]}`: the ragged x column is padded with 0 to
the maximum extent, the scalar y values are coerced into a length-2
array. -/
theorem concat_scenario_dict :
    exceptOkBeq (concatExamples c8batch none c8pad) c8expected = true := by decide

/-- C1 (divergence witness): on a non-empty dict batch
`ConcatWithAsyncTransfer.__call__` raises `UnboundLocalError` — its dict
branch indexes the conveyer registry, the examples and the padding with
the never-assigned loop variable `i` instead of `key` — while
`concat_examples` on the very same batch returns the per-key concatenated
mapping the claim describes. -/
theorem async_dict_bug :
    (CWAT.call 1 (CWAT.init none) bugBatch none Padding.none).1
        = Except.error PyErr.unboundLocalError ∧
    exceptOkBeq (concatExamples bugBatch none Padding.none)
        (CResult.dict [("x", ofList2 [[1, 2], [1, 2]])]) = true :=
  ⟨rfl, by decide⟩

/-- On the asynchronous path the guard of `Conveyer.call` is false. -/
lemma conveyer_async_guard {α : Type} (c : Conveyer α) (d : Int) (u : Unit)
    (hdev : c.device = some d) (hd0 : 0 ≤ d) (hs : c.stream = some u) :
    ¬ (c.device = none ∨ c.device.getD 0 < 0 ∨ c.stream = none) := by
  intro h
  rcases h with h | h | h
  · rw [hdev] at h
    exact Option.noConfusion h
  · rw [hdev] at h
    simp only [Option.getD_some] at h
    exact absurd h (not_lt.mpr hd0)
  · rw [hs] at h
    exact Option.noConfusion h

/-- Popping an empty pinned slot reallocates. -/
lemma conveyer_call_realloc_none {α : Type} (itemsize : Nat) (c : Conveyer α)
    (a : NDArray α) (d : Int) (u : Unit)
    (hdev : c.device = some d) (hd0 : 0 ≤ d) (hs : c.stream = some u)
    (cp0 : Option (NDArray α)) (rest : List (Option (NDArray α) × Option (NDArray α)))
    (hset : c.array_set = (none, cp0) :: rest) :
    Conveyer.call itemsize c a = Conveyer.reallocStep itemsize c a rest := by
  unfold Conveyer.call
  rw [if_neg (conveyer_async_guard c d u hdev hd0 hs), hset]

/-- Popping a pinned buffer of mismatched byte size reallocates. -/
lemma conveyer_call_realloc_mismatch {α : Type} (itemsize : Nat) (c : Conveyer α)
    (a : NDArray α) (d : Int) (u : Unit)
    (hdev : c.device = some d) (hd0 : 0 ≤ d) (hs : c.stream = some u)
    (pin : NDArray α) (cp0 : Option (NDArray α))
    (rest : List (Option (NDArray α) × Option (NDArray α)))
    (hset : c.array_set = (some pin, cp0) :: rest)
    (hnb : NDArray.nbytes itemsize pin ≠ NDArray.nbytes itemsize a) :
    Conveyer.call itemsize c a = Conveyer.reallocStep itemsize c a rest := by
  unfold Conveyer.call
  rw [if_neg (conveyer_async_guard c d u hdev hd0 hs), hset]
  simp only [beq_eq_false_iff_ne.mpr hnb, Bool.false_eq_true, if_false]

/-- Popping a pinned buffer of matching byte size and matching shapes
reuses the pair with no allocation and no synchronization. -/
lemma conveyer_call_reuse {α : Type} (itemsize : Nat) (c : Conveyer α)
    (a : NDArray α) (d : Int) (u : Unit)
    (hdev : c.device = some d) (hd0 : 0 ≤ d) (hs : c.stream = some u)
    (pin cp : NDArray α) (rest : List (Option (NDArray α) × Option (NDArray α)))
    (hset : c.array_set = (some pin, some cp) :: rest)
    (hnb : NDArray.nbytes itemsize pin = NDArray.nbytes itemsize a)
    (hps : pin.shape = a.shape) (hcs : cp.shape = a.shape) :
    Conveyer.call itemsize c a =
      (Except.ok { cp with data := a.data },
       { c with array_set :=
           rest ++ [(some { pin with data := a.data }, some { cp with data := a.data })] },
       [Event.copyToPinned, Event.asyncCopyToDevice]) := by
  unfold Conveyer.call
  rw [if_neg (conveyer_async_guard c d u hdev hd0 hs), hset]
  simp only [hnb, hps, hcs, beq_self_eq_true, if_true]

/-- Whenever the popped pinned buffer exists and its byte size matches the
new array, no allocation event is emitted (every outcome of the reuse path
allocates nothing). -/
lemma conveyer_call_match_no_alloc {α : Type} (itemsize : Nat) (c : Conveyer α)
    (a : NDArray α) (d : Int) (u : Unit)
    (hdev : c.device = some d) (hd0 : 0 ≤ d) (hs : c.stream = some u)
    (pin : NDArray α) (cp0 : Option (NDArray α))
    (rest : List (Option (NDArray α) × Option (NDArray α)))
    (hset : c.array_set = (some pin, cp0) :: rest)
    (hnb : NDArray.nbytes itemsize pin = NDArray.nbytes itemsize a) :
    ((Conveyer.call itemsize c a).2.2.any Event.isAlloc) = false := by
  unfold Conveyer.call
  rw [if_neg (conveyer_async_guard c d u hdev hd0 hs), hset]
  simp only [hnb, beq_self_eq_true, if_true]
  cases cp0 with
  | none => rfl
  | some cp =>
    by_cases h1 : pin.shape = a.shape
    · by_cases h2 : cp.shape = a.shape
      · simp [h1, h2, Event.isAlloc]
      · simp [h1, beq_eq_false_iff_ne.mpr h2, Event.isAlloc]
    · simp [beq_eq_false_iff_ne.mpr h1, Event.isAlloc]

/-- C5 counterexample: from a freshly initialized `Conveyer`, the second of
two sequential calls with the same array (hence same shape and byte size)
does reallocate — it pops the second still-empty buffer pair, so its event
trace performs the full device synchronization followed by the pinned and
device allocations. -/
theorem conveyer_second_call_reallocates :
    (Conveyer.call 1 ((Conveyer.call 1 (Conveyer.init (some 0) (some ())) exArr).2.1) exArr).2.2
      = [Event.deviceSynchronize, Event.allocPinned 2, Event.allocDevice 2,
         Event.copyToPinned, Event.asyncCopyToDevice] ∧
    ((Conveyer.call 1 ((Conveyer.call 1 (Conveyer.init (some 0) (some ())) exArr).2.1)
        exArr).2.2.any Event.isAlloc) = true :=
  ⟨rfl, rfl⟩

/-- C5 (amended): on the asynchronous path, the popped buffer pair is
reused — no allocation event — exactly when it holds a pinned buffer whose
byte size equals that of the new array; whenever it does not (no pinned buffer
yet, or a size mismatch) the call emits a full device synchronization
first and only then allocates the new pinned and device buffers.  From a
fresh channel the first two calls therefore each reallocate; the third of
three sequential calls with same-shape arrays performs no reallocation. -/
theorem conveyer_reuse_iff {α : Type} (itemsize : Nat) (c : Conveyer α) (a : NDArray α)
    (d : Int) (u : Unit) (hdev : c.device = some d) (hd0 : 0 ≤ d) (hs : c.stream = some u)
    (pin0 cp0 : Option (NDArray α)) (rest : List (Option (NDArray α) × Option (NDArray α)))
    (hset : c.array_set = (pin0, cp0) :: rest)
    (a1 a2 a3 : NDArray α) (h12 : a1.shape = a2.shape) (h23 : a2.shape = a3.shape) :
    (((Conveyer.call itemsize c a).2.2.any Event.isAlloc) = false ↔
        ∃ pin, pin0 = some pin ∧
          NDArray.nbytes itemsize pin = NDArray.nbytes itemsize a) ∧
    ((∀ pin, pin0 = some pin → NDArray.nbytes itemsize pin ≠ NDArray.nbytes itemsize a) →
        (Conveyer.call itemsize c a).2.2 =
          [Event.deviceSynchronize, Event.allocPinned (NDArray.nbytes itemsize a),
           Event.allocDevice (NDArray.nbytes itemsize a),
           Event.copyToPinned, Event.asyncCopyToDevice]) ∧
    (((Conveyer.call itemsize (Conveyer.call itemsize
          (Conveyer.call itemsize (Conveyer.init (some d) (some u)) a1).2.1 a2).2.1
        a3).2.2.any Event.isAlloc) = false) := by
  refine ⟨?_, ?_, ?_⟩
  · constructor
    · intro hno
      cases pin0 with
      | none =>
        rw [conveyer_call_realloc_none itemsize c a d u hdev hd0 hs cp0 rest hset] at hno
        simp [Conveyer.reallocStep, Event.isAlloc] at hno
      | some pin =>
        by_cases hnb : NDArray.nbytes itemsize pin = NDArray.nbytes itemsize a
        · exact ⟨pin, rfl, hnb⟩
        · rw [conveyer_call_realloc_mismatch itemsize c a d u hdev hd0 hs pin cp0 rest
            hset hnb] at hno
          simp [Conveyer.reallocStep, Event.isAlloc] at hno
    · rintro ⟨pin, hpin, hnb⟩
      subst hpin
      exact conveyer_call_match_no_alloc itemsize c a d u hdev hd0 hs pin cp0 rest hset hnb
  · intro hmis
    cases pin0 with
    | none =>
      rw [conveyer_call_realloc_none itemsize c a d u hdev hd0 hs cp0 rest hset]
      rfl
    | some pin =>
      rw [conveyer_call_realloc_mismatch itemsize c a d u hdev hd0 hs pin cp0 rest hset
        (hmis pin rfl)]
      rfl
  · have e1 : Conveyer.call itemsize (Conveyer.init (some d) (some u) : Conveyer α) a1
        = Conveyer.reallocStep itemsize (Conveyer.init (some d) (some u)) a1 [(none, none)] :=
      conveyer_call_realloc_none itemsize _ a1 d u rfl hd0 rfl none [(none, none)] rfl
    rw [e1]
    have e2 : Conveyer.call itemsize
          ((Conveyer.reallocStep itemsize (Conveyer.init (some d) (some u) : Conveyer α)
              a1 [(none, none)]).2.1) a2
        = Conveyer.reallocStep itemsize
            ((Conveyer.reallocStep itemsize (Conveyer.init (some d) (some u) : Conveyer α)
                a1 [(none, none)]).2.1) a2
            [(some (pinnedLike a1), some (deviceLike d a1))] :=
      conveyer_call_realloc_none itemsize _ a2 d u rfl hd0 rfl none
        [(some (pinnedLike a1), some (deviceLike d a1))] rfl
    rw [e2]
    exact conveyer_call_match_no_alloc itemsize _ a3 d u rfl hd0 rfl (pinnedLike a1)
      (some (deviceLike d a1)) [(some (pinnedLike a2), some (deviceLike d a2))] rfl
      (by simp [NDArray.nbytes, pinnedLike, h12.trans h23])

/-- Witness for `conveyer_reuse_iff` at a fresh concrete conveyer and a
concrete array. -/
theorem conveyer_reuse_iff_witness :
    ((Conveyer.init (some 0) (some ()) : Conveyer Int).device = some 0 ∧ (0 : Int) ≤ 0 ∧
     (Conveyer.init (some 0) (some ()) : Conveyer Int).stream = some () ∧
     (Conveyer.init (some 0) (some ()) : Conveyer Int).array_set
        = ((none : Option (NDArray Int)), (none : Option (NDArray Int))) :: [(none, none)] ∧
     exArr.shape = exArr.shape) ∧
    ((((Conveyer.call 1 (Conveyer.init (some 0) (some ())) exArr).2.2.any Event.isAlloc)
          = false ↔
        ∃ pin, (none : Option (NDArray Int)) = some pin ∧
          NDArray.nbytes 1 pin = NDArray.nbytes 1 exArr) ∧
     ((∀ pin, (none : Option (NDArray Int)) = some pin →
          NDArray.nbytes 1 pin ≠ NDArray.nbytes 1 exArr) →
        (Conveyer.call 1 (Conveyer.init (some 0) (some ())) exArr).2.2 =
          [Event.deviceSynchronize, Event.allocPinned (NDArray.nbytes 1 exArr),
           Event.allocDevice (NDArray.nbytes 1 exArr),
           Event.copyToPinned, Event.asyncCopyToDevice]) ∧
     (((Conveyer.call 1 (Conveyer.call 1
           (Conveyer.call 1 (Conveyer.init (some 0) (some ())) exArr).2.1 exArr).2.1
         exArr).2.2.any Event.isAlloc) = false)) :=
  ⟨⟨rfl, by decide, rfl, rfl, rfl⟩,
   conveyer_reuse_iff 1 (Conveyer.init (some 0) (some ())) exArr 0 () rfl (by decide) rfl
     none none [(none, none)] rfl exArr exArr exArr rfl rfl⟩

/-- C9: `array_set` starts with exactly two buffer pairs, and every
successful call on the asynchronous path pops exactly the front pair and
appends exactly one pair at the back — the returned array being the device
buffer of the pair just appended — so a two-pair rotation stays a two-pair
rotation and the pair popped for reuse is always the least recently issued
one. -/
theorem conveyer_ring_invariant {α : Type} (itemsize : Nat) (c c2 : Conveyer α)
    (a b : NDArray α) (evs : List Event) (d : Int) (u : Unit)
    (hdev : c.device = some d) (hd0 : 0 ≤ d) (hs : c.stream = some u)
    (hcall : Conveyer.call itemsize c a = (Except.ok b, c2, evs)) :
    (∀ (dv : Option Int) (st : Option Unit),
        (Conveyer.init (α := α) dv st).array_set.length = 2) ∧
    (∃ pin, c2.array_set = c.array_set.tail ++ [(some pin, some b)]) ∧
    (c.array_set.length = 2 → c2.array_set.length = 2) := by
  refine ⟨fun _ _ => rfl, ?_⟩
  have main : ∃ pin, c2.array_set = c.array_set.tail ++ [(some pin, some b)] := by
    rcases hset : c.array_set with _ | ⟨⟨pin0, cp0⟩, rest⟩
    · unfold Conveyer.call at hcall
      rw [if_neg (conveyer_async_guard c d u hdev hd0 hs), hset] at hcall
      simp only [Prod.mk.injEq] at hcall
      exact absurd hcall.1 (by simp)
    · cases pin0 with
      | none =>
        rw [conveyer_call_realloc_none itemsize c a d u hdev hd0 hs cp0 rest hset] at hcall
        simp only [Conveyer.reallocStep, Prod.mk.injEq, Except.ok.injEq] at hcall
        obtain ⟨hb, hc2, _⟩ := hcall
        exact ⟨pinnedLike a, by rw [← hc2, ← hb]; rfl⟩
      | some pin =>
        by_cases hnb : NDArray.nbytes itemsize pin = NDArray.nbytes itemsize a
        · unfold Conveyer.call at hcall
          rw [if_neg (conveyer_async_guard c d u hdev hd0 hs), hset] at hcall
          simp only [hnb, beq_self_eq_true, if_true] at hcall
          cases cp0 with
          | none => simp only [Prod.mk.injEq] at hcall; exact absurd hcall.1 (by simp)
          | some cp =>
            by_cases h1 : pin.shape = a.shape
            · by_cases h2 : cp.shape = a.shape
              · simp only [h1, h2, beq_self_eq_true, if_true, Prod.mk.injEq,
                  Except.ok.injEq] at hcall
                obtain ⟨hb, hc2, _⟩ := hcall
                exact ⟨{ pin with data := a.data }, by rw [← hc2, ← hb, h1]; rfl⟩
              · simp only [h1, beq_self_eq_true, beq_eq_false_iff_ne.mpr h2,
                  Bool.false_eq_true, if_true, if_false, Prod.mk.injEq] at hcall
                exact absurd hcall.1 (by simp)
            · simp only [beq_eq_false_iff_ne.mpr h1, Bool.false_eq_true, if_false,
                Prod.mk.injEq] at hcall
              exact absurd hcall.1 (by simp)
        · rw [conveyer_call_realloc_mismatch itemsize c a d u hdev hd0 hs pin cp0 rest
            hset hnb] at hcall
          simp only [Conveyer.reallocStep, Prod.mk.injEq, Except.ok.injEq] at hcall
          obtain ⟨hb, hc2, _⟩ := hcall
          exact ⟨pinnedLike a, by rw [← hc2, ← hb]; rfl⟩
  refine ⟨main, fun h2 => ?_⟩
  obtain ⟨pin, hp⟩ := main
  rw [hp, List.length_append, List.length_tail, h2]
  rfl

/-- The fresh conveyer used by the concrete witnesses. -/
def cvFresh : Conveyer Int := Conveyer.init (some 0) (some ())

/-- The state of `cvFresh` after one call on `exArr`. -/
def cvAfter1 : Conveyer Int :=
  { device := some 0, stream := some (),
    array_set := [(none, none), (some (pinnedLike exArr), some (deviceLike 0 exArr))] }

/-- Witness for `conveyer_ring_invariant` at a concrete first call of a
fresh conveyer. -/
theorem conveyer_ring_invariant_witness :
    (cvFresh.device = some 0 ∧ (0 : Int) ≤ 0 ∧ cvFresh.stream = some () ∧
     Conveyer.call 1 cvFresh exArr =
       (Except.ok (deviceLike 0 exArr), cvAfter1,
        [Event.deviceSynchronize, Event.allocPinned 2, Event.allocDevice 2,
         Event.copyToPinned, Event.asyncCopyToDevice])) ∧
    ((∀ (dv : Option Int) (st : Option Unit),
        (Conveyer.init (α := Int) dv st).array_set.length = 2) ∧
     (∃ pin, cvAfter1.array_set =
        cvFresh.array_set.tail ++ [(some pin, some (deviceLike 0 exArr))]) ∧
     (cvFresh.array_set.length = 2 → cvAfter1.array_set.length = 2)) :=
  ⟨⟨rfl, by decide, rfl, rfl⟩,
   conveyer_ring_invariant 1 cvFresh cvAfter1 exArr _ _ 0 () rfl (by decide) rfl rfl⟩

/-- Conversion of a slot value back and forth is the identity. -/
lemma Val.toArr_arr {α : Type} (a : NDArray α) : Val.toArr (Val.arr a) = a := rfl

/-- Elementwise maximum of a shape with itself. -/
lemma zipWith_max_self (s : List Nat) : List.zipWith max s s = s := by
  induction s with
  | nil => rfl
  | cons a t ih => simp [List.zipWith, ih]

/-- The guarded update of the running shape is plain elementwise
maximum. -/
lemma shapeStep_eq_zipWith (sh b : List Nat) : shapeStep sh b = List.zipWith max sh b := by
  unfold shapeStep
  by_cases h : sh = b
  · subst h
    simp [zipWith_max_self]
  · simp [beq_eq_false_iff_ne.mpr h]

/-- Reading one coordinate of an elementwise maximum. -/
lemma getD_zipWith_max : ∀ (s t : List Nat) (k : Nat), k < s.length → k < t.length →
    (List.zipWith max s t).getD k 0 = max (s.getD k 0) (t.getD k 0)
  | [], _, _, h, _ => absurd h (by simp)
  | _ :: _, [], _, _, h => absurd h (by simp)
  | a :: s, b :: t, 0, _, _ => rfl
  | a :: s, b :: t, k + 1, h1, h2 => by
      simpa using getD_zipWith_max s t k (by simpa using h1) (by simpa using h2)

/-- Folding the running-shape update over equal-rank shapes keeps the
rank. -/
lemma foldl_shapeStep_length (l : List (List Nat)) (s : List Nat) (r : Nat)
    (hs : s.length = r) (hl : ∀ t ∈ l, t.length = r) :
    (l.foldl shapeStep s).length = r := by
  induction l generalizing s with
  | nil => exact hs
  | cons t l ih =>
    rw [List.foldl_cons]
    refine ih (shapeStep s t) ?_ (fun t2 ht2 => hl t2 (by simp [ht2]))
    rw [shapeStep_eq_zipWith, List.length_zipWith, hs, hl t (by simp)]
    exact Nat.min_self r

/-- Reading one coordinate of the folded running shape: it is the running
maximum of that coordinate. -/
lemma foldl_shapeStep_getD (l : List (List Nat)) (s : List Nat) (r k : Nat)
    (hs : s.length = r) (hl : ∀ t ∈ l, t.length = r) (hk : k < r) :
    (l.foldl shapeStep s).getD k 0
      = l.foldl (fun m t => max m (t.getD k 0)) (s.getD k 0) := by
  induction l generalizing s with
  | nil => rfl
  | cons t l ih =>
    rw [List.foldl_cons, List.foldl_cons, shapeStep_eq_zipWith]
    rw [ih (List.zipWith max s t)
        (by rw [List.length_zipWith, hs, hl t (by simp)]; exact Nat.min_self r)
        (fun t2 ht2 => hl t2 (by simp [ht2]))]
    rw [getD_zipWith_max s t k (hs ▸ hk) ((hl t (by simp)) ▸ hk)]

/-- Folding the running-shape update over equal shapes is constant. -/
lemma foldl_shapeStep_const (l : List (List Nat)) (s : List Nat)
    (hl : ∀ t ∈ l, t = s) :
    l.foldl shapeStep s = s := by
  induction l with
  | nil => rfl
  | cons t l ih =>
    rw [List.foldl_cons, hl t (by simp), shapeStep_eq_zipWith, zipWith_max_self]
    exact ih (fun t2 ht2 => hl t2 (by simp [ht2]))

/-- The copy loop of `_concat_arrays_with_padding` never changes the shape
of the result buffer. -/
lemma foldl_writeSub_shape {α : Type} [Inhabited α] (arrays : List (NDArray α))
    (res0 : NDArray α) (n : Nat) :
    ((List.range n).foldl (fun res k => writeSub res k (arrays.getD k default)) res0).shape
      = res0.shape := by
  induction n with
  | zero => rfl
  | succ n ih =>
    rw [List.range_succ, List.foldl_append]
    exact ih

/-- The copy loop of `_concat_arrays_with_padding` never changes the
residence of the result buffer. -/
lemma foldl_writeSub_loc {α : Type} [Inhabited α] (arrays : List (NDArray α))
    (res0 : NDArray α) (n : Nat) :
    ((List.range n).foldl (fun res k => writeSub res k (arrays.getD k default)) res0).loc
      = res0.loc := by
  induction n with
  | zero => rfl
  | succ n ih =>
    rw [List.range_succ, List.foldl_append]
    exact ih

/-- Cell contents after the copy loop of `_concat_arrays_with_padding`:
inside the extent of the array belonging to row i the copied value, elsewhere the
original buffer content. -/
lemma writeSub_data_cons {α : Type} (res : NDArray α) (k : Nat) (src : NDArray α)
    (i : Nat) (j : List Nat) :
    (writeSub res k src).data (i :: j)
      = if i = k ∧ inBounds src.shape j = true then src.data j
        else res.data (i :: j) := by
  simp [writeSub]

lemma foldl_writeSub_data {α : Type} [Inhabited α] (arrays : List (NDArray α))
    (res0 : NDArray α) (n i : Nat) (j : List Nat) :
    ((List.range n).foldl (fun res k => writeSub res k (arrays.getD k default)) res0).data
        (i :: j)
      = if i < n ∧ inBounds (arrays.getD i default).shape j = true
        then (arrays.getD i default).data j
        else res0.data (i :: j) := by
  induction n with
  | zero => simp
  | succ n ih =>
    rw [List.range_succ, List.foldl_append, List.foldl_cons, List.foldl_nil,
      writeSub_data_cons]
    by_cases hin : i = n
    · subst hin
      by_cases hb : inBounds (arrays.getD i default).shape j = true
      · rw [if_pos ⟨rfl, hb⟩, if_pos ⟨Nat.lt_succ_self i, hb⟩]
      · rw [if_neg (fun h => hb h.2), ih,
          if_neg (fun h => absurd h.1 (Nat.lt_irrefl i)),
          if_neg (fun h => hb h.2)]
    · rw [if_neg (fun h => hin h.1), ih]
      by_cases hlt : i < n
      · by_cases hb : inBounds (arrays.getD i default).shape j = true
        · rw [if_pos ⟨hlt, hb⟩, if_pos ⟨Nat.lt_succ_of_lt hlt, hb⟩]
        · rw [if_neg (fun h => hb h.2), if_neg (fun h => hb h.2)]
      · have h2 : ¬ i < n + 1 := fun h => hin (by omega)
        rw [if_neg (fun h => hlt h.1), if_neg (fun h => h2 h.1)]

/-- The elementwise maximum of the k-th dimension over all arrays of a
batch (the spec-level reading of the common shape). -/
def dimMax {α : Type} (arrays : List (NDArray α)) (k : Nat) : Nat :=
  arrays.foldl (fun m a => max m (a.shape.getD k 0)) 0

/-- C2: for a non-empty batch of equal-rank arrays and an explicit padding
value, `_concat_arrays_with_padding` succeeds with a result whose leading
dimension is the batch length, whose remaining dimensions are the
elementwise maximum of all example shapes, whose cells inside the own
(top-left-aligned) extent of an example equal the data of that example, and whose cells
outside it equal the padding value. -/
theorem concat_padding_spec {α : Type} [Inhabited α] (arrays : List (NDArray α)) (p : α)
    (r : Nat) (hne : arrays ≠ []) (hrank : ∀ a ∈ arrays, a.shape.length = r) :
    ∃ res, concatWithPadding arrays p = Except.ok res ∧
      (∃ t, res.shape = arrays.length :: t ∧ t.length = r ∧
        ∀ k, k < r → t.getD k 0 = dimMax arrays k) ∧
      (∀ i, i < arrays.length → ∀ j,
          inBounds (arrays.getD i default).shape j = true →
          res.data (i :: j) = (arrays.getD i default).data j) ∧
      (∀ i, i < arrays.length → ∀ j,
          inBounds (arrays.getD i default).shape j = false →
          res.data (i :: j) = p) := by
  obtain ⟨a0, rest, rfl⟩ := List.exists_cons_of_ne_nil hne
  refine ⟨_, rfl, ⟨maxShapeCode a0 rest, ?_, ?_, ?_⟩, ?_, ?_⟩
  · rw [foldl_writeSub_shape]
  · unfold maxShapeCode
    rw [← List.foldl_map (fun b : NDArray α => b.shape) shapeStep]
    exact foldl_shapeStep_length _ _ r (hrank a0 (by simp))
      (fun t ht => by
        obtain ⟨a, ha, rfl⟩ := List.mem_map.mp ht
        exact hrank a (by simp [ha]))
  · intro k hk
    unfold maxShapeCode
    rw [← List.foldl_map (fun b : NDArray α => b.shape) shapeStep]
    rw [foldl_shapeStep_getD _ _ r k (hrank a0 (by simp))
      (fun t ht => by
        obtain ⟨a, ha, rfl⟩ := List.mem_map.mp ht
        exact hrank a (by simp [ha])) hk]
    rw [List.foldl_map]
    unfold dimMax
    rw [List.foldl_cons, Nat.zero_max]
  · intro i hi j hj
    rw [foldl_writeSub_data, if_pos ⟨hi, hj⟩]
  · intro i hi j hj
    rw [foldl_writeSub_data,
      if_neg (fun h => by rw [hj] at h; exact Bool.noConfusion h.2)]

/-- An in-range `getD` returns an element of the list. -/
lemma getD_mem_of_lt {α : Type} [Inhabited α] :
    ∀ (l : List α) (i : Nat), i < l.length → l.getD i default ∈ l
  | [], _, h => absurd h (by simp)
  | a :: l, 0, _ => by
      rw [List.getD_cons_zero]
      exact List.mem_cons_self a l
  | a :: l, i + 1, h => by
      rw [List.getD_cons_succ]
      exact List.mem_cons_of_mem a (getD_mem_of_lt l i (Nat.lt_of_succ_lt_succ h))

/-- Shape of an `array[None]` slice. -/
lemma expandDim0_shape {α : Type} [Inhabited α] (a : NDArray α) :
    (expandDim0 a).shape = 1 :: a.shape := rfl

/-- Residence of an `array[None]` slice. -/
lemma expandDim0_loc {α : Type} [Inhabited α] (a : NDArray α) :
    (expandDim0 a).loc = a.loc := rfl

/-- The leading-dimension sum of the `array[None]` slices is the batch
length. -/
lemma sumHeads_expand {α : Type} [Inhabited α] (l : List (NDArray α)) :
    sumHeads (l.map expandDim0) = l.length := by
  have aux : ∀ (l2 : List (NDArray α)) (acc : Nat),
      (l2.map expandDim0).foldl (fun s a => s + a.shape.headD 0) acc = acc + l2.length := by
    intro l2
    induction l2 with
    | nil => intro acc; simp
    | cons a t ih =>
        intro acc
        rw [List.map_cons, List.foldl_cons, expandDim0_shape]
        simp only [List.headD_cons]
        rw [ih (acc + 1)]
        simp only [List.length_cons]
        omega
  rw [sumHeads, aux l 0, Nat.zero_add]

/-- Cell lookup of the stacked `array[None]` slices is row lookup. -/
lemma catData_expand {α : Type} [Inhabited α] :
    ∀ (l : List (NDArray α)) (i : Nat), i < l.length → ∀ (j : List Nat),
      catData (l.map expandDim0) i j = (l.getD i default).data j
  | [], i, hi, _ => absurd hi (by simp)
  | a :: l, 0, _, j => by
      rw [List.map_cons, List.getD_cons_zero]
      simp [catData, expandDim0]
  | a :: l, i + 1, hi, j => by
      rw [List.map_cons, List.getD_cons_succ]
      have h1 : ¬ i + 1 < (expandDim0 a).shape.headD 0 := by
        rw [expandDim0_shape]
        simp
      rw [catData, if_neg h1, expandDim0_shape]
      simpa using catData_expand l i (Nat.lt_of_succ_lt_succ hi) j

/-- `_concat_arrays` on a batch of ndarray values with no padding stacks
the `array[None]` slices with `xp.concatenate`. -/
lemma concatArrays_arr_none {α : Type} [Inhabited α] (a0 : NDArray α)
    (rest : List (NDArray α)) :
    concatArrays ((a0 :: rest).map Val.arr) none
      = concatenate0 ((a0 :: rest).map expandDim0) := by
  simp [concatArrays, List.map_map, Function.comp_def, Val.toArr_arr]

/-- `_concat_arrays` on a batch of ndarray values with a padding value
goes straight to `_concat_arrays_with_padding`. -/
lemma concatArrays_arr_some {α : Type} [Inhabited α] (a0 : NDArray α)
    (rest : List (NDArray α)) (p : α) :
    concatArrays ((a0 :: rest).map Val.arr) (some p)
      = concatWithPadding (a0 :: rest) p := by
  simp [concatArrays, List.map_map, Function.comp_def, Val.toArr_arr]

/-- Stacking equal-shaped arrays: shape, residence and cells of the
`xp.concatenate` result over the `array[None]` slices. -/
lemma concatenate0_stack {α : Type} [Inhabited α] (a0 : NDArray α)
    (rest : List (NDArray α)) (s : List Nat) (hs : ∀ a ∈ a0 :: rest, a.shape = s) :
    ∃ res, concatenate0 ((a0 :: rest).map expandDim0) = Except.ok res ∧
      res.shape = (a0 :: rest).length :: s ∧ res.loc = a0.loc ∧
      ∀ i, i < (a0 :: rest).length → ∀ j,
        res.data (i :: j) = ((a0 :: rest).getD i default).data j := by
  have hall : ((expandDim0 a0 :: rest.map expandDim0).all
      (fun b => !b.shape.isEmpty && b.shape.tail == a0.shape)) = true := by
    rw [List.all_eq_true]
    intro b hb
    rw [show expandDim0 a0 :: rest.map expandDim0 = (a0 :: rest).map expandDim0
      from rfl] at hb
    obtain ⟨a, ha, rfl⟩ := List.mem_map.mp hb
    have h1 : a.shape = s := hs a ha
    have h0 : a0.shape = s := hs a0 (by simp)
    simp [expandDim0_shape, h1, h0]
  rw [List.map_cons]
  simp only [concatenate0, expandDim0_shape]
  rw [if_pos hall]
  refine ⟨_, rfl, ?_, rfl, ?_⟩
  · rw [show (expandDim0 a0 :: rest.map expandDim0) = (a0 :: rest).map expandDim0 from rfl,
      sumHeads_expand, hs a0 (by simp)]
  · intro i hi j
    exact catData_expand (a0 :: rest) i hi j

/-- C3: for a non-empty batch of identically-shaped arrays,
`_concat_arrays` with no padding returns an array whose leading dimension
is the batch length, whose remaining shape is the common example shape,
and whose i-th leading slice holds the cells of the i-th input array. -/
theorem concat_no_padding {α : Type} [Inhabited α] (arrays : List (NDArray α))
    (s : List Nat) (hne : arrays ≠ []) (hs : ∀ a ∈ arrays, a.shape = s) :
    ∃ res, concatArrays (arrays.map Val.arr) none = Except.ok res ∧
      res.shape = arrays.length :: s ∧
      ∀ i, i < arrays.length → ∀ j, inBounds s j = true →
        res.data (i :: j) = (arrays.getD i default).data j := by
  obtain ⟨a0, rest, rfl⟩ := List.exists_cons_of_ne_nil hne
  obtain ⟨res, h1, h2, h3, h4⟩ := concatenate0_stack a0 rest s hs
  exact ⟨res, by rw [concatArrays_arr_none]; exact h1, h2,
    fun i hi j _ => h4 i hi j⟩

/-- C10: for a non-empty batch of arrays of one common shape (the common
dtype is fixed by the cell type), concatenation with any padding value
yields extensionally the same array as concatenation with no padding. -/
theorem concat_padding_irrelevant {α : Type} [Inhabited α] (arrays : List (NDArray α))
    (p : α) (s : List Nat) (hne : arrays ≠ []) (hs : ∀ a ∈ arrays, a.shape = s) :
    ∃ r1 r2, concatArrays (arrays.map Val.arr) (some p) = Except.ok r1 ∧
      concatArrays (arrays.map Val.arr) none = Except.ok r2 ∧
      NDArray.extEq r1 r2 := by
  obtain ⟨a0, rest, rfl⟩ := List.exists_cons_of_ne_nil hne
  obtain ⟨r2, hr2, h2shape, h2loc, h2data⟩ := concatenate0_stack a0 rest s hs
  have hmax : maxShapeCode a0 rest = s := by
    unfold maxShapeCode
    rw [← List.foldl_map (fun b : NDArray α => b.shape) shapeStep, hs a0 (by simp)]
    exact foldl_shapeStep_const _ s (fun t ht => by
      obtain ⟨a, ha, rfl⟩ := List.mem_map.mp ht
      exact hs a (by simp [ha]))
  refine ⟨(List.range (a0 :: rest).length).foldl
      (fun res i => writeSub res i ((a0 :: rest).getD i default))
      { shape := (a0 :: rest).length :: maxShapeCode a0 rest, loc := a0.loc,
        data := fun _ => p }, r2, ?_, ?_, ?_, ?_, ?_⟩
  · rw [concatArrays_arr_some]
    rfl
  · rw [concatArrays_arr_none]
    exact hr2
  · rw [foldl_writeSub_shape, hmax, h2shape]
  · rw [foldl_writeSub_loc, h2loc]
  · intro idx hidx
    rw [foldl_writeSub_shape] at hidx
    cases idx with
    | nil => simp [inBounds] at hidx
    | cons i j =>
      simp only [inBounds, hmax, Bool.and_eq_true, decide_eq_true_eq] at hidx
      obtain ⟨hi, hj⟩ := hidx
      have hsh : ((a0 :: rest).getD i default).shape = s :=
        hs _ (getD_mem_of_lt _ i hi)
      rw [foldl_writeSub_data, if_pos ⟨hi, by rw [hsh]; exact hj⟩, h2data i hi j]

/-- The concrete ragged batch used by witnesses. -/
def raggedArrays : List (NDArray Int) := [ofList1 [1, 2], ofList1 [3, 4, 5]]

/-- The concrete equal-shape batch used by witnesses. -/
def eqArrays : List (NDArray Int) := [ofList1 [5, 6], ofList1 [7, 8]]

/-- Witness for `concat_padding_spec` at the concrete ragged batch. -/
theorem concat_padding_spec_witness :
    (raggedArrays ≠ [] ∧ ∀ a ∈ raggedArrays, a.shape.length = 1) ∧
    (∃ res, concatWithPadding raggedArrays (0 : Int) = Except.ok res ∧
      (∃ t, res.shape = raggedArrays.length :: t ∧ t.length = 1 ∧
        ∀ k, k < 1 → t.getD k 0 = dimMax raggedArrays k) ∧
      (∀ i, i < raggedArrays.length → ∀ j,
          inBounds (raggedArrays.getD i default).shape j = true →
          res.data (i :: j) = (raggedArrays.getD i default).data j) ∧
      (∀ i, i < raggedArrays.length → ∀ j,
          inBounds (raggedArrays.getD i default).shape j = false →
          res.data (i :: j) = (0 : Int))) :=
  ⟨⟨by simp [raggedArrays], by decide⟩,
   concat_padding_spec raggedArrays 0 1 (by simp [raggedArrays]) (by decide)⟩

/-- Witness for `concat_no_padding` at the concrete equal-shape batch. -/
theorem concat_no_padding_witness :
    (eqArrays ≠ [] ∧ ∀ a ∈ eqArrays, a.shape = [2]) ∧
    (∃ res, concatArrays (eqArrays.map Val.arr) none = Except.ok res ∧
      res.shape = eqArrays.length :: [2] ∧
      ∀ i, i < eqArrays.length → ∀ j, inBounds [2] j = true →
        res.data (i :: j) = (eqArrays.getD i default).data j) :=
  ⟨⟨by simp [eqArrays], by decide⟩,
   concat_no_padding eqArrays [2] (by simp [eqArrays]) (by decide)⟩

/-- Witness for `concat_padding_irrelevant` at the concrete equal-shape
batch. -/
theorem concat_padding_irrelevant_witness :
    (eqArrays ≠ [] ∧ ∀ a ∈ eqArrays, a.shape = [2]) ∧
    (∃ r1 r2, concatArrays (eqArrays.map Val.arr) (some (9 : Int)) = Except.ok r1 ∧
      concatArrays (eqArrays.map Val.arr) none = Except.ok r2 ∧
      NDArray.extEq r1 r2) :=
  ⟨⟨by simp [eqArrays], by decide⟩,
   concat_padding_irrelevant eqArrays 9 [2] (by simp [eqArrays]) (by decide)⟩
